import Mathlib

/-!
Verification of the `paper_generator` document-assembly engine
(`src/paper_generator/generator.py`, class `Report`).

The Python class is shallowly embedded: `self.sections` (a dict from title
to body, insertion ordered) becomes an association list, `self.outline` a
`List String`, and methods become functions `ReportState → … → Except PgError
ReportState`.  Methods that mutate `self` across a loop and can raise midway
(`sections_from_dict`, `_load_outline`) are embedded as functions returning
`ReportState × Option PgError`, so that the state retained by the Python
object when the exception propagates is observable.  File reads are replaced
by passing the file's decoded text as an argument.
-/

namespace PaperGen

/-- Errors raised by the engine.  The source raises plain `Exception` /
`KeyError` / `IndexError`; the constructors name the distinct raise sites:
`duplicateSection` is `Exception("A section with the given title already
exists.")` in `new_section`, `keyError` is a Python `KeyError` from a missing
`self.args` key, `indexError` is Python's `IndexError` from `list.pop` or an
out-of-range index, `configError` is the `Exception("... file not set.")`
raised by the loaders, `unknownReference` is the resolver failure described
by the specification. -/
inductive PgError where
  | duplicateSection
  | keyError
  | indexError
  | configError
  | unknownReference
  deriving Repr, DecidableEq

/-- The section/outline state of a `Report`: `self.sections` (insertion
ordered dict title ↦ body) and `self.outline` (list of titles). -/
structure ReportState where
  sections : List (String × String)
  outline : List String
  deriving Repr, DecidableEq

/-- Python whitespace for `str.strip()` (ASCII range: space, tab, newline,
carriage return, vertical tab, form feed). -/
def isPyWS (c : Char) : Bool :=
  c = ' ' || c = '\t' || c = '\n' || c = '\r' || c = Char.ofNat 11 || c = Char.ofNat 12

/-- Python `str.strip()`: remove leading and trailing whitespace. -/
def pyStrip (s : String) : String :=
  String.mk (((s.toList.dropWhile isPyWS).reverse.dropWhile isPyWS).reverse)

/-- Python `str.lower()` on ASCII text (the category prefixes and labels
the engine handles), character by character. -/
def pyLower (s : String) : String := String.mk (s.toList.map Char.toLower)

/-- Helper for `pyLines`: split a character list after each newline,
keeping the newline with its line (Python `readlines` semantics on the
decoded text). -/
def splitNLAux (acc : List Char) : List Char → List (List Char)
  | [] => if acc.isEmpty then [] else [acc.reverse]
  | '\n' :: rest => (acc.reverse ++ ['\n']) :: splitNLAux [] rest
  | c :: rest => splitNLAux (c :: acc) rest

/-- Python `file.readlines()` on already-decoded text: lines keep their
trailing newline; no empty final line is produced. -/
def pyLines (s : String) : List String :=
  (splitNLAux [] s.toList).map String.mk

/-- Python list indexing: a negative index counts from the end; `some k`
gives the effective non-negative index, `none` means `IndexError`. -/
def pyIdx (n : Nat) (i : Int) : Option Nat :=
  if 0 ≤ i then (if i < (n : Int) then some i.toNat else none)
  else (if -(n : Int) ≤ i then some ((n : Int) + i).toNat else none)

/-- Python `self.outline[i]` with Python index semantics. -/
def pyGetStr (l : List String) (i : Int) : Option String :=
  (pyIdx l.length i).map (fun k => l.getD k "")

/-- Python `list.pop(i)`: returns the removed element and the remaining
list, or `none` (`IndexError`) for an out-of-range index. -/
def pyPop (l : List α) (i : Int) : Option (α × List α) :=
  match pyIdx l.length i with
  | none => none
  | some k =>
    match l[k]? with
    | some x => some (x, l.eraseIdx k)
    | none => none

/-- Insert an element at a (clamped, non-negative) position of a list. -/
def insertAt : Nat → α → List α → List α
  | 0, x, l => x :: l
  | _ + 1, x, [] => [x]
  | k + 1, x, a :: l => a :: insertAt k x l

/-- Python `list.insert(j, x)` index clamping: a negative `j` counts from
the end (clamped to 0), a too-large `j` appends at the end. -/
def pyInsertIdx (n : Nat) (j : Int) : Nat :=
  if j < 0 then ((n : Int) + j).toNat else min j.toNat n

/-- Evaluate `f` over a list, failing (Python: raising at the first bad
element of the comprehension) if any application fails. -/
def mapOpt (f : α → Option β) : List α → Option (List β)
  | [] => some []
  | a :: l =>
    match f a, mapOpt f l with
    | some b, some bs => some (b :: bs)
    | _, _ => none

/-- Python `dict` assignment `m[k] = v`: overwrite the value in place if the
key exists, otherwise append the new binding. -/
def pyDictSet (m : List (String × α)) (k : String) (v : α) : List (String × α) :=
  if m.any (fun p => p.1 = k) then
    m.map (fun p => if p.1 = k then (k, v) else p)
  else m ++ [(k, v)]

/-- `Report.new_section` (generator.py:175): raise if the title is already a
key of `self.sections` (the raise precedes any mutation, so a failing call
leaves the state unchanged), otherwise record the body and append the title
to the outline. -/
def new_section (s : ReportState) (title : String) (content : String := "") :
    Except PgError ReportState :=
  if (s.sections.map Prod.fst).contains title then
    .error .duplicateSection
  else
    .ok { sections := s.sections ++ [(title, content)],
          outline := s.outline ++ [title] }

/-- Loop calling `new_section` per pair, as `sections_from_dict` and
`_load_outline` do.  The Python loop mutates `self` as it goes and an
exception propagates out, so the pre-failure state is returned alongside
the error. -/
def run_new_sections : ReportState → List (String × String) →
    ReportState × Option PgError
  | s, [] => (s, none)
  | s, (t, b) :: rest =>
    match new_section s t b with
    | .ok s' => run_new_sections s' rest
    | .error e => (s, some e)

/-- `Report.sections_from_dict` (generator.py:166): create a section per
`(title, body)` item in the mapping's iteration order. -/
def sections_from_dict (s : ReportState) (pairs : List (String × String)) :
    ReportState × Option PgError :=
  run_new_sections s pairs

/-- `Report._load_outline` (generator.py:139) on the text read from the
outline file (the `outline_file` configuration check and the file read are
modeled by passing the decoded file content): for each line of the file,
`new_section(line.strip())` with the default empty body. -/
def load_outline_text (s : ReportState) (data : String) :
    ReportState × Option PgError :=
  run_new_sections s ((pyLines data).map (fun l => (pyStrip l, "")))

/-- `Report.reorder_outline` (generator.py:224):
`self.outline = [self.outline[i] for i in ordering]`.  No validation of any
kind is performed on `ordering`; the only possible failure is Python's
`IndexError` from an out-of-range index, raised while the comprehension is
evaluated, i.e. before `self.outline` is reassigned. -/
def reorder_outline (s : ReportState) (ordering : List Int) :
    Except PgError ReportState :=
  match mapOpt (pyGetStr s.outline) ordering with
  | some newOutline => .ok { s with outline := newOutline }
  | none => .error .indexError

/-- `Report.move_section` (generator.py:208): build `ordering =
list(range(len(outline)))`, pop `currentpos` from it (Python `pop`:
negative indices count from the end, out of range raises `IndexError` —
on the local list, so `self.outline` is untouched by a failing call), then
either append it (`newpos >= len(outline)`) or `insert(newpos, …)`, and
apply `reorder_outline`. -/
def move_section (s : ReportState) (currentpos newpos : Int) :
    Except PgError ReportState :=
  match pyPop ((List.range s.outline.length).map Int.ofNat) currentpos with
  | none => .error .indexError
  | some (x, rest) =>
    if (s.outline.length : Int) ≤ newpos then
      reorder_outline s (rest ++ [x])
    else
      reorder_outline s (insertAt (pyInsertIdx rest.length newpos) x rest)

/-- The literal `END` marker closing a glossary entry. -/
def endMarker : List Char := ['E', 'N', 'D']

/-- Matcher for the `(.+?)END` part of the glossary pattern
(`re.findall` with `re.S`, so `.` matches newlines): the shortest non-empty
body followed by the literal `END`; returns the body and the characters
after the `END`. -/
def bodyMatch : List Char → Option (List Char × List Char)
  | [] => none
  | c :: t =>
    if endMarker.isPrefixOf t then some ([c], t.drop 3)
    else
      match bodyMatch t with
      | some (p, rest) => some (c :: p, rest)
      | none => none

/-- Matcher for the `(.+?)\n(.+?)END` part of the glossary pattern: the
shortest non-empty label followed by a newline for which the body part can
still match (regex backtracking: a candidate label is extended, past the
newline if needed, whenever no `END` follows).  Returns label, body, and
the remaining characters. -/
def labelMatch : List Char → Option (List Char × List Char × List Char)
  | [] => none
  | c :: t =>
    match t with
    | '\n' :: u =>
      (match bodyMatch u with
       | some (b, rest) => some ([c], b, rest)
       | none =>
         match labelMatch t with
         | some (p, b, rest) => some (c :: p, b, rest)
         | none => none)
    | _ =>
      match labelMatch t with
      | some (p, b, rest) => some (c :: p, b, rest)
      | none => none

/-- Matcher for the full entry pattern `(k1|k2|…)\s(.+?)\n(.+?)END` at the
current position: regex alternation tries the kinds in order (the
`'|'.join(self.kinds.keys())` order); after a kind must come one whitespace
character, then label and body.  Returns kind, label, body and the
remaining characters. -/
def tryKinds (kinds : List String) (r : List Char) :
    Option (String × List Char × List Char × List Char) :=
  match kinds with
  | [] => none
  | k :: ks =>
    match
      (if k.toList.isPrefixOf r then
        match r.drop k.toList.length with
        | c :: t =>
          if isPyWS c then
            match labelMatch t with
            | some (lab, b, rest) => some (k, lab, b, rest)
            | none => none
          else none
        | [] => none
      else none) with
    | some res => some res
    | none => tryKinds ks r

/-- The `re.findall` scan for `Report._load_glossary`'s pattern: try a match
at each position from the left; on success record the groups and continue
after the match, else advance one character.  `fuel` bounds the recursion
(each step consumes at least one character, so `fuel = length` suffices). -/
def findAllFuel (kinds : List String) : Nat → List Char →
    List (String × List Char × List Char)
  | 0, _ => []
  | _ + 1, [] => []
  | fuel + 1, r@(_ :: t) =>
    match tryKinds kinds r with
    | some (k, lab, b, rest) => (k, lab, b) :: findAllFuel kinds fuel rest
    | none => findAllFuel kinds fuel t

/-- All matches of the glossary entry pattern in the source text, as
(kind, label, body) string triples. -/
def findAllEntries (kinds : List String) (data : String) :
    List (String × String × String) :=
  (findAllFuel kinds data.toList.length data.toList).map
    (fun e => (e.1, String.mk e.2.1, String.mk e.2.2))

/-- A glossary entry: the recognized kind and the stripped body. -/
structure GlossEntry where
  kind : String
  body : String
  deriving Repr, DecidableEq

/-- `Report._load_glossary` (generator.py:114) on the text read from the
glossary file: find all `(k1|k2|…)\s(.+?)\n(.+?)END` matches (`re.S`) and
build the dict `{self.args['refs'].lower() + ':' + label.strip():
{'kind': kind, 'body': body.strip()}}`.  The kinds (`self.kinds.keys()`,
assumed non-empty), the `refs` category string, and the file's decoded
content are passed as arguments; Python dict-comprehension semantics on a
repeated key (value of the last match wins) are kept by `pyDictSet`. -/
def load_glossary_text (kinds : List String) (refcat : String) (data : String) :
    List (String × GlossEntry) :=
  (findAllEntries kinds data).foldl
    (fun m e => pyDictSet m (pyLower refcat ++ ":" ++ pyStrip e.2.1)
      ⟨e.1, pyStrip e.2.2⟩) []

/-- Truthiness of an optional string slot (Python: `None` and `''` are
falsy). -/
def truthyOpt : Option String → Bool
  | none => false
  | some s => s ≠ ""

/-- Text that contains no inline reference token: a token is a bracketed
label, so token-free text is text without the `[` opening marker. -/
def noRefTokens (text : String) : Prop := '[' ∉ text.toList

instance (text : String) : Decidable (noRefTokens text) :=
  inferInstanceAs (Decidable ('[' ∉ text.toList))

/-- Per-kind presentation title, e.g. kind `lemma` renders as `Lemma`. -/
def kindTitle (k : String) : String :=
  match k.toList with
  | [] => ""
  | c :: rest => String.mk (c.toUpper :: rest)

/-- Modelled from the spec: rendering of one glossary entry with the
per-kind running counter (§4.2: each kind maps to a distinct template
"Kind N: body" with a monotonic per-kind counter starting at 1).  The
source leaves `_prep_gloss_item` abstract (`raise NotImplementedError`,
generator.py:240). -/
def renderEntry (counts : List (String × Nat)) (e : GlossEntry) :
    List (String × Nat) × String :=
  let n := ((counts.lookup e.kind).getD 0) + 1
  (pyDictSet counts e.kind n,
   kindTitle e.kind ++ " " ++ toString n ++ ": " ++ e.body)

/-- Split a character list at the first closing bracket `]`, returning the
token before it and the characters after it; `none` if no `]` occurs. -/
def splitClose : List Char → Option (List Char × List Char)
  | [] => none
  | ']' :: rest => some ([], rest)
  | c :: rest =>
    match splitClose rest with
    | some (tok, r) => some (c :: tok, r)
    | none => none

/-- Modelled from the spec: single-pass scan of `resolveText`.  The source
declares `_parse_refs` but leaves it abstract (`raise NotImplementedError`,
generator.py:250); §4.2 of the specification fixes its contract: locate
every inline reference token (a bracketed label in the glossary's
namespacing scheme, §8 example `[Sec:l1]`), replace it by the kind-rendered
glossary entry, fail with the unknown-reference error when the label has no
glossary match, and never re-scan produced output (no recursive
substitution).  An unmatched `[` with no closing bracket is not a token and
is passed through.  `fuel` bounds the recursion (each step consumes at
least one input character). -/
def resolveFuel (g : List (String × GlossEntry)) :
    Nat → List (String × Nat) → List Char → Except PgError (List Char)
  | 0, _, cs => .ok cs
  | _ + 1, _, [] => .ok []
  | fuel + 1, counts, c :: rest =>
    if c = '[' then
      match splitClose rest with
      | some (tok, rest') =>
        match g.lookup (pyLower (String.mk tok)) with
        | some e =>
          let (counts', s) := renderEntry counts e
          match resolveFuel g fuel counts' rest' with
          | .ok tail => .ok (s.toList ++ tail)
          | .error err => .error err
        | none => .error .unknownReference
      | none =>
        match resolveFuel g fuel counts rest with
        | .ok tail => .ok (c :: tail)
        | .error err => .error err
    else
      match resolveFuel g fuel counts rest with
      | .ok tail => .ok (c :: tail)
      | .error err => .error err

/-- Modelled from the spec: `resolve(text, glossary)` (the abstract
`Report._parse_refs`), see `resolveFuel`. -/
def resolveText (g : List (String × GlossEntry)) (text : String) :
    Except PgError String :=
  match resolveFuel g text.toList.length [] text.toList with
  | .ok cs => .ok (String.mk cs)
  | .error e => .error e

/-- The fixed `self.args['headers']` list set by `__init__`
(generator.py:44). -/
def headerNames : List String :=
  ["lhead", "chead", "rhead", "lfoot", "cfoot", "rfoot"]

/-- The keyword arguments of `Report.__init__` plus the `heads` entry the
constructor injects into `self.args`.  `none` in an outer `Option` models a
key absent from the kwargs dict (so that reading it raises `KeyError`);
`count_pos` and `outline_file` use a nested `Option` because present-but-
`None` and absent behave differently for them.  `hide_title` is a pure
key-presence flag (`'hide_title' not in self.args`). -/
structure Args where
  author : Option String := none
  title : Option String := none
  toc : Option Bool := none
  root : Option String := none
  glossary_file : Option String := none
  outline_file : Option (Option String) := none
  bib_file : Option String := none
  refs : Option String := none
  packages : Option (List String) := none
  count_pos : Option (Option String) := none
  hide_title : Bool := false
  twocolumn : Option Bool := none
  lhead : Option String := none
  chead : Option String := none
  rhead : Option String := none
  lfoot : Option String := none
  cfoot : Option String := none
  rfoot : Option String := none
  heads : List (String × Option String) := []
  deriving Repr, DecidableEq

/-- One directive registered with the pylatex document (preamble or body
command). -/
inductive DocItem where
  | pagestyle (s : String)
  | fancyhf
  | headCmd (pos val : String)
  | titleCmd (s : String)
  | authorCmd (s : String)
  | dateToday
  | tableofcontents
  | maketitle
  deriving Repr, DecidableEq

/-- The pylatex `Document` as far as the engine drives it: documentclass
options, requested packages, preamble and body directives. -/
structure Doc where
  options : List String := ["12pt"]
  packages : List String := []
  preamble : List DocItem := []
  body : List DocItem := []
  deriving Repr, DecidableEq

/-- A `Report` object: `self.args`, `self.doc`, and the section/outline
state (`self.sections`, `self.outline`). -/
structure Report where
  args : Args
  doc : Doc
  sections : List (String × String) := []
  outline : List String := []
  deriving Repr, DecidableEq

/-- Value of the header/footer slot named `pos` among the six kwargs
(`self.args.get(pos)`). -/
def slotVal (a : Args) (pos : String) : Option String :=
  if pos = "lhead" then a.lhead
  else if pos = "chead" then a.chead
  else if pos = "rhead" then a.rhead
  else if pos = "lfoot" then a.lfoot
  else if pos = "cfoot" then a.cfoot
  else if pos = "rfoot" then a.rfoot
  else none

/-- `Report.__init__` (generator.py:11): set the documentclass options
(adding `twocolumn` only when the kwarg is literally `True`), build
`self.args['heads']` from the six slots via `.get`, and, when a `bib_file`
kwarg is present, append `biblatex` to `self.args['packages']` (a `KeyError`
if no `packages` kwarg was given). -/
def mkReport (a : Args) : Except PgError Report :=
  let opts := if a.twocolumn = some true then ["12pt", "twocolumn"] else ["12pt"]
  let a1 := { a with heads := headerNames.map (fun p => (p, slotVal a p)) }
  match a1.bib_file with
  | none => .ok { args := a1, doc := { options := opts } }
  | some _ =>
    match a1.packages with
    | none => .error .keyError
    | some ps =>
      .ok { args := { a1 with packages := some (ps ++ ["biblatex"]) },
            doc := { options := opts } }

/-- `Report._has_headers` (generator.py:57): `any(self.args['heads'].values())`
under Python truthiness. -/
def has_headers (r : Report) : Bool :=
  r.args.heads.any (fun p => truthyOpt p.2)

/-- The fixed page-count header text injected by `_check_fancyhdr`. -/
def pageCountMsg : String := "Page~\\thepage\\ of~\\pageref{LastPage}"

/-- `Report._check_fancyhdr` (generator.py:66): append `fancyhdr` to
`self.args['packages']` if missing (a `KeyError` if no `packages` kwarg
exists), then read `self.args['count_pos']` — a `KeyError` when the caller
never passed a `count_pos` kwarg — and, when it names one of the six
header/footer slots, ensure `lastpage` is listed and store the page-count
text in that slot. -/
def check_fancyhdr (r : Report) : Except PgError Report :=
  match r.args.packages with
  | none => .error .keyError
  | some pkgs =>
    let pkgs1 := if pkgs.contains "fancyhdr" then pkgs else pkgs ++ ["fancyhdr"]
    match r.args.count_pos with
    | none => .error .keyError
    | some cp =>
      let hit := match cp with
        | some s => headerNames.contains s
        | none => false
      if hit then
        let pkgs2 := if pkgs1.contains "lastpage" then pkgs1
                     else pkgs1 ++ ["lastpage"]
        let cps := cp.getD ""
        let heads2 := r.args.heads.map
          (fun p => if p.1 = cps then (p.1, some pageCountMsg) else p)
        .ok { r with args := { r.args with packages := some pkgs2, heads := heads2 } }
      else
        .ok { r with args := { r.args with packages := some pkgs1 } }

/-- `Report._add_headers` (generator.py:83): `pagestyle fancy`, `fancyhf`,
then one command per truthy slot. -/
def add_headers (r : Report) : Report :=
  let slotCmds := r.args.heads.filterMap
    (fun p => match p.2 with
      | some v => if v = "" then none else some (DocItem.headCmd p.1 v)
      | none => none)
  let pre := r.doc.preamble ++ [.pagestyle "fancy", .fancyhf] ++ slotCmds
  { r with doc := { r.doc with preamble := pre } }

/-- `Report._load_packages` (generator.py:91): append every entry of
`self.args['packages']` to the document's package list (a `KeyError` when
no `packages` kwarg exists). -/
def load_packages (r : Report) : Except PgError Report :=
  match r.args.packages with
  | none => .error .keyError
  | some ps =>
    .ok { r with doc := { r.doc with packages := r.doc.packages ++ ps } }

/-- `Report._gen_toc` (generator.py:154). -/
def gen_toc (r : Report) : Report :=
  { r with doc := { r.doc with body := r.doc.body ++ [.tableofcontents] } }

/-- `Report._gen_title` (generator.py:158): reads `self.args['title']` and
`self.args['author']` (`KeyError` when absent). -/
def gen_title (r : Report) : Except PgError Report :=
  match r.args.title with
  | none => .error .keyError
  | some t =>
    match r.args.author with
    | none => .error .keyError
    | some au =>
      let pre := r.doc.preamble ++ [.titleCmd t, .authorCmd au, .dateToday]
      let bod := r.doc.body ++ [.maketitle]
      .ok { r with doc := { r.doc with preamble := pre, body := bod } }

/-- `Report.initialize` (generator.py:259): header check, package loading,
header directives, optional table of contents (`self.args['toc']` is read
unconditionally — `KeyError` when absent), title block unless a
`hide_title` kwarg is present, and outline loading when an `outline_file`
kwarg is present (the outline file's decoded content is the `outlineData`
argument; a falsy configured value raises the "Outline file not set."
error).  On a failure inside the outline loop the partially created
sections stay on the Python object; this embedding returns only the
error. -/
def reportInit (r : Report) (outlineData : String) : Except PgError Report := do
  let r ← if has_headers r then check_fancyhdr r else pure r
  let r ← load_packages r
  let r := if has_headers r then add_headers r else r
  let r ← match r.args.toc with
    | none => Except.error PgError.keyError
    | some b => Except.ok (if b then gen_toc r else r)
  let r ← if r.args.hide_title then pure r else gen_title r
  match r.args.outline_file with
  | none => .ok r
  | some v =>
    if truthyOpt v then
      match run_new_sections ⟨r.sections, r.outline⟩
          ((pyLines outlineData).map (fun l => (pyStrip l, ""))) with
      | (st, none) => .ok { r with sections := st.sections, outline := st.outline }
      | (_, some e) => .error e
    else .error .configError

/-! ## Invariants and validity predicates -/

/-- The outline invariant: the outline is a permutation of the section
registry's key list (every registered title exactly once, no foreign
titles). -/
def OutlineInv (s : ReportState) : Prop :=
  List.Perm s.outline (s.sections.map Prod.fst)

instance (s : ReportState) : Decidable (OutlineInv s) :=
  inferInstanceAs (Decidable (List.Perm _ _))

/-- The argument of `reorderBy` is a bijection on `[0, n)`: a list of `n`
distinct indices, each in `[0, n)`. -/
def IsBijOn (ord : List Int) (n : Nat) : Prop :=
  ord.length = n ∧ ord.Nodup ∧ ∀ i ∈ ord, 0 ≤ i ∧ i < (n : Int)

instance (ord : List Int) (n : Nat) : Decidable (IsBijOn ord n) :=
  inferInstanceAs (Decidable (_ ∧ _ ∧ _))

/-! ## List helper lemmas -/

theorem eraseIdx_map (f : α → β) (k : Nat) (l : List α) :
    (l.map f).eraseIdx k = (l.eraseIdx k).map f := by
  induction l generalizing k with
  | nil => simp
  | cons a t ih =>
    cases k with
    | zero => simp
    | succ k => simp [List.eraseIdx_cons_succ, ih]

theorem insertAt_map (f : α → β) (k : Nat) (x : α) (l : List α) :
    (insertAt k x l).map f = insertAt k (f x) (l.map f) := by
  induction l generalizing k with
  | nil => cases k <;> rfl
  | cons a t ih =>
    cases k with
    | zero => rfl
    | succ k => simp [insertAt, ih]

theorem insertAt_perm (k : Nat) (x : α) (l : List α) :
    List.Perm (insertAt k x l) (x :: l) := by
  induction l generalizing k with
  | nil => cases k <;> exact List.Perm.refl _
  | cons a t ih =>
    cases k with
    | zero => exact List.Perm.refl _
    | succ k =>
      exact ((ih k).cons a).trans (List.Perm.swap x a t)

theorem insertAt_getD (k : Nat) (x : α) (l : List α) (d : α) (h : k ≤ l.length) :
    (insertAt k x l).getD k d = x := by
  induction l generalizing k with
  | nil =>
    have : k = 0 := Nat.le_zero.mp h
    subst this; rfl
  | cons a t ih =>
    cases k with
    | zero => rfl
    | succ k =>
      simpa [insertAt] using ih k (Nat.le_of_succ_le_succ h)

theorem perm_cons_eraseIdx' {l : List α} {k : Nat} {x : α}
    (h : l[k]? = some x) : List.Perm l (x :: l.eraseIdx k) := by
  induction l generalizing k with
  | nil => simp at h
  | cons a t ih =>
    cases k with
    | zero =>
      simp only [List.getElem?_cons_zero, Option.some.injEq] at h
      subst h; exact List.Perm.refl _
    | succ k =>
      simp only [List.getElem?_cons_succ] at h
      exact ((ih h).cons a).trans (List.Perm.swap x a _)

theorem getD_map_range (l : List String) :
    (List.range l.length).map (fun k => l.getD k "") = l := by
  induction l with
  | nil => rfl
  | cons a t ih =>
    rw [List.length_cons, List.range_succ_eq_map, List.map_cons, List.map_map]
    refine congrArg (a :: ·) ?_
    exact (List.map_congr_left (g := fun k => t.getD k "")
      (fun k _ => by simp [Function.comp, List.getD_cons_succ])).trans ih

/-! ## Python-indexing lemmas -/

theorem pyIdx_ofNat {n k : Nat} (h : k < n) : pyIdx n (Int.ofNat k) = some k := by
  have hk : Int.ofNat k = (k : Int) := rfl
  unfold pyIdx
  rw [hk, if_pos (by omega), if_pos (by omega)]
  simp

theorem pyIdx_lt {n : Nat} {i : Int} {k : Nat} (h : pyIdx n i = some k) :
    k < n := by
  unfold pyIdx at h
  split at h <;> split at h <;>
    first
      | (simp only [Option.some.injEq] at h; omega)
      | simp at h

theorem pyIdx_none {n : Nat} {i : Int}
    (h : i < -(n : Int) ∨ (n : Int) ≤ i) : pyIdx n i = none := by
  unfold pyIdx
  split
  · rw [if_neg]; omega
  · rw [if_neg]; omega

theorem pyIdx_some_of {n : Nat} {i : Int} (h1 : -(n : Int) ≤ i)
    (h2 : i < (n : Int)) : ∃ k, pyIdx n i = some k ∧ k < n := by
  unfold pyIdx
  split <;> exact ⟨_, rfl, by omega⟩

theorem pyGetStr_ofNat {l : List String} {k : Nat} (h : k < l.length) :
    pyGetStr l (Int.ofNat k) = some (l.getD k "") := by
  unfold pyGetStr
  rw [pyIdx_ofNat h]
  rfl

theorem mapOpt_pyGet_ofNat (l : List String) (ks : List Nat)
    (h : ∀ k ∈ ks, k < l.length) :
    mapOpt (pyGetStr l) (ks.map Int.ofNat)
      = some (ks.map (fun k => l.getD k "")) := by
  induction ks with
  | nil => rfl
  | cons k ks ih =>
    have h1 : pyGetStr l (Int.ofNat k) = some (l.getD k "") :=
      pyGetStr_ofNat (h k (by simp))
    have h2 := ih (fun a ha => h a (by simp [ha]))
    simp only [List.map_cons, mapOpt]
    rw [h1, h2]

theorem mapOpt_none {f : α → Option β} {l : List α} {a : α}
    (ha : a ∈ l) (hf : f a = none) : mapOpt f l = none := by
  induction l with
  | nil => simp at ha
  | cons b t ih =>
    rcases List.mem_cons.mp ha with rfl | ha'
    · simp [mapOpt, hf]
    · cases hfb : f b <;> simp [mapOpt, hfb, ih ha']

theorem mapOpt_some_of_isSome {f : α → Option β} {d : β} :
    ∀ {l : List α}, (∀ a ∈ l, (f a).isSome) →
    mapOpt f l = some (l.map (fun a => (f a).getD d)) := by
  intro l
  induction l with
  | nil => intro _; rfl
  | cons a t ih =>
    intro h
    obtain ⟨b, hb⟩ := Option.isSome_iff_exists.mp (h a (List.mem_cons_self _ _))
    have ht := ih (fun x hx => h x (List.mem_cons_of_mem _ hx))
    simp only [List.map_cons, mapOpt, hb, ht, Option.getD_some]

theorem pyGetStr_isSome {l : List String} {i : Int}
    (h1 : -(l.length : Int) ≤ i) (h2 : i < (l.length : Int)) :
    (pyGetStr l i).isSome := by
  obtain ⟨k, hk, -⟩ := pyIdx_some_of h1 h2
  simp [pyGetStr, hk]

/-! ## Characterization of `reorder_outline` and `move_section` -/

theorem reorder_ok_of_natList (s : ReportState) (ks : List Nat)
    (h : ∀ k ∈ ks, k < s.outline.length) :
    reorder_outline s (ks.map Int.ofNat)
      = .ok { s with outline := ks.map (fun k => s.outline.getD k "") } := by
  unfold reorder_outline
  rw [mapOpt_pyGet_ofNat _ _ h]

theorem reorder_ok_of_perm_range {s : ReportState} {ks : List Nat}
    (hperm : List.Perm ks (List.range s.outline.length)) :
    reorder_outline s (ks.map Int.ofNat)
      = .ok { s with outline := ks.map (fun k => s.outline.getD k "") }
    ∧ List.Perm (ks.map (fun k => s.outline.getD k "")) s.outline := by
  have hmem : ∀ k ∈ ks, k < s.outline.length := fun k hk =>
    List.mem_range.mp (hperm.subset hk)
  refine ⟨reorder_ok_of_natList s ks hmem, ?_⟩
  have h2 := hperm.map (fun k => s.outline.getD k "")
  rwa [getD_map_range] at h2

/-- A successful `pyIdx` lookup determines the value and shape of `pyPop`
on the `list(range(n))` ordering built by `move_section`. -/
theorem pyPop_range_eq {n : Nat} {c : Int} {k : Nat}
    (hidx : pyIdx n c = some k) (hk : k < n) :
    pyPop ((List.range n).map Int.ofNat) c
      = some (Int.ofNat k, ((List.range n).eraseIdx k).map Int.ofNat) := by
  have hget : ((List.range n).map Int.ofNat)[k]? = some (Int.ofNat k) := by
    simp [List.getElem?_map, List.getElem?_range, hk]
  unfold pyPop
  simp only [List.length_map, List.length_range, hidx, hget, eraseIdx_map]

/-- An out-of-range index makes `pyPop` fail on the range ordering. -/
theorem pyPop_range_none {n : Nat} {c : Int}
    (h : c < -(n : Int) ∨ (n : Int) ≤ c) :
    pyPop ((List.range n).map Int.ofNat) c = none := by
  unfold pyPop
  simp only [List.length_map, List.length_range, pyIdx_none h]

/-- The post-`pop` ordering used by `move_section` (append or insert
branch) is a permutation of `range n`, written as a mapped Nat list. -/
theorem move_ordering_perm (n : Nat) (k : Nat) (hk : k < n) :
    List.Perm (((List.range n).eraseIdx k) ++ [k]) (List.range n)
    ∧ ∀ m : Nat, List.Perm (insertAt m k ((List.range n).eraseIdx k))
        (List.range n) := by
  have hrange : (List.range n)[k]? = some k := by
    simp [List.getElem?_range, hk]
  have hperm1 : List.Perm (List.range n) (k :: (List.range n).eraseIdx k) :=
    perm_cons_eraseIdx' hrange
  exact ⟨(List.perm_append_singleton _ _).trans hperm1.symm,
    fun m => (insertAt_perm _ _ _).trans hperm1.symm⟩

/-- Any successful `move_section` call permutes the outline and leaves the
sections untouched. -/
theorem move_section_ok_perm {s s' : ReportState} {c j : Int}
    (h : move_section s c j = .ok s') :
    List.Perm s'.outline s.outline ∧ s'.sections = s.sections := by
  unfold move_section at h
  cases hidx : pyIdx s.outline.length c with
  | none =>
    rw [show pyPop ((List.range s.outline.length).map Int.ofNat) c = none
        by unfold pyPop; simp only [List.length_map, List.length_range, hidx]]
      at h
    exact absurd h (by simp)
  | some k =>
    have hk : k < s.outline.length := pyIdx_lt hidx
    simp only [pyPop_range_eq hidx hk] at h
    obtain ⟨happ, hins⟩ := move_ordering_perm s.outline.length k hk
    split at h
    · rw [show ((List.range s.outline.length).eraseIdx k).map Int.ofNat
            ++ [Int.ofNat k]
          = (((List.range s.outline.length).eraseIdx k) ++ [k]).map Int.ofNat
          by simp] at h
      obtain ⟨heq, hout⟩ := reorder_ok_of_perm_range happ
      rw [heq] at h
      cases h
      exact ⟨hout, rfl⟩
    · rw [show insertAt
            (pyInsertIdx (((List.range s.outline.length).eraseIdx k).map
              Int.ofNat).length j) (Int.ofNat k)
            (((List.range s.outline.length).eraseIdx k).map Int.ofNat)
          = (insertAt
              (pyInsertIdx (((List.range s.outline.length).eraseIdx k).map
                Int.ofNat).length j) k
              ((List.range s.outline.length).eraseIdx k)).map Int.ofNat
          from (insertAt_map _ _ _ _).symm] at h
      obtain ⟨heq, hout⟩ := reorder_ok_of_perm_range (hins _)
      rw [heq] at h
      cases h
      exact ⟨hout, rfl⟩

/-- An in-range `currentpos` makes `move_section` succeed. -/
theorem move_section_isOk {s : ReportState} {c j : Int}
    (h1 : -(s.outline.length : Int) ≤ c) (h2 : c < (s.outline.length : Int)) :
    ∃ s', move_section s c j = .ok s' := by
  obtain ⟨k, hidx, hk⟩ := pyIdx_some_of h1 h2
  obtain ⟨happ, hins⟩ := move_ordering_perm s.outline.length k hk
  unfold move_section
  simp only [pyPop_range_eq hidx hk]
  split
  · rw [show ((List.range s.outline.length).eraseIdx k).map Int.ofNat
          ++ [Int.ofNat k]
        = (((List.range s.outline.length).eraseIdx k) ++ [k]).map Int.ofNat
        by simp]
    exact ⟨_, (reorder_ok_of_perm_range happ).1⟩
  · rw [show insertAt
          (pyInsertIdx (((List.range s.outline.length).eraseIdx k).map
            Int.ofNat).length j) (Int.ofNat k)
          (((List.range s.outline.length).eraseIdx k).map Int.ofNat)
        = (insertAt
            (pyInsertIdx (((List.range s.outline.length).eraseIdx k).map
              Int.ofNat).length j) k
            ((List.range s.outline.length).eraseIdx k)).map Int.ofNat
        from (insertAt_map _ _ _ _).symm]
    exact ⟨_, (reorder_ok_of_perm_range (hins _)).1⟩

/-- An out-of-range `currentpos` makes `move_section` fail with the index
error, before any state is touched. -/
theorem move_section_err {s : ReportState} {c j : Int}
    (h : c < -(s.outline.length : Int) ∨ (s.outline.length : Int) ≤ c) :
    move_section s c j = .error .indexError := by
  unfold move_section
  simp only [pyPop_range_none h]

/-! ## Interface lemmas for `new_section` and the creation loops -/

theorem new_section_mem {s : ReportState} {t b : String}
    (hmem : t ∈ s.sections.map Prod.fst) :
    new_section s t b = .error .duplicateSection := by
  unfold new_section
  rw [if_pos (by simpa using hmem)]

theorem new_section_fresh {s : ReportState} {t b : String}
    (hmem : t ∉ s.sections.map Prod.fst) :
    new_section s t b
      = .ok ⟨s.sections ++ [(t, b)], s.outline ++ [t]⟩ := by
  unfold new_section
  rw [if_neg (by simpa using hmem)]

theorem new_section_error_eq {s : ReportState} {t b : String} {e : PgError}
    (h : new_section s t b = .error e) :
    e = .duplicateSection ∧ t ∈ s.sections.map Prod.fst := by
  unfold new_section at h
  split at h
  · cases h
    refine ⟨rfl, ?_⟩
    next hc => simpa using hc
  · exact absurd h (by simp)

theorem new_section_ok_eq {s s1 : ReportState} {t b : String}
    (h : new_section s t b = .ok s1) :
    s1 = ⟨s.sections ++ [(t, b)], s.outline ++ [t]⟩
      ∧ t ∉ s.sections.map Prod.fst := by
  unfold new_section at h
  split at h
  · exact absurd h (by simp)
  · cases h
    refine ⟨rfl, ?_⟩
    next hc => simpa using hc

theorem run_new_sections_ok {pairs : List (String × String)} :
    ∀ {s s' : ReportState}, run_new_sections s pairs = (s', none) →
    s' = ⟨s.sections ++ pairs, s.outline ++ pairs.map Prod.fst⟩ := by
  induction pairs with
  | nil =>
    intro s s' h
    simp only [run_new_sections, Prod.mk.injEq] at h
    rw [← h.1]
    simp
  | cons p rest ih =>
    intro s s' h
    obtain ⟨t, b⟩ := p
    simp only [run_new_sections] at h
    cases hns : new_section s t b with
    | error e =>
      simp only [hns] at h
      exact absurd h (by simp)
    | ok s1 =>
      simp only [hns] at h
      obtain ⟨hs1, -⟩ := new_section_ok_eq hns
      subst hs1
      rw [ih h]
      simp

theorem run_new_sections_err {pairs : List (String × String)} :
    ∀ {s s' : ReportState} {e : PgError},
    run_new_sections s pairs = (s', some e) →
    e = .duplicateSection ∧ ∃ pre t b post, pairs = pre ++ (t, b) :: post ∧
      run_new_sections s pre = (s', none) ∧ t ∈ s'.sections.map Prod.fst := by
  induction pairs with
  | nil =>
    intro s s' e h
    simp [run_new_sections] at h
  | cons p rest ih =>
    intro s s' e h
    obtain ⟨t, b⟩ := p
    simp only [run_new_sections] at h
    cases hns : new_section s t b with
    | error e' =>
      simp only [hns, Prod.mk.injEq, Option.some.injEq] at h
      obtain ⟨rfl, rfl⟩ := h
      obtain ⟨rfl, hmem⟩ := new_section_error_eq hns
      exact ⟨rfl, [], t, b, rest, rfl, rfl, hmem⟩
    | ok s1 =>
      simp only [hns] at h
      obtain ⟨he, pre, t', b', post, hrest, hpre, hcont⟩ := ih h
      refine ⟨he, (t, b) :: pre, t', b', post, by simp [hrest], ?_, hcont⟩
      simp only [run_new_sections, hns]
      exact hpre

theorem run_new_sections_fail_mem {t : String} :
    ∀ (pairs : List (String × String)) (s : ReportState),
    t ∈ s.sections.map Prod.fst → t ∈ pairs.map Prod.fst →
    (run_new_sections s pairs).2 = some .duplicateSection := by
  intro pairs
  induction pairs with
  | nil => intro s _ hm; simp at hm
  | cons p rest ih =>
    intro s hk hm
    obtain ⟨t0, b0⟩ := p
    simp only [run_new_sections]
    cases hns : new_section s t0 b0 with
    | error e =>
      obtain ⟨rfl, -⟩ := new_section_error_eq hns
      rfl
    | ok s1 =>
      obtain ⟨hs1, hfresh⟩ := new_section_ok_eq hns
      rcases (by simpa using hm : t = t0 ∨ t ∈ rest.map Prod.fst) with rfl | hm'
      · exact absurd hk hfresh
      · have hk1 : t ∈ s1.sections.map Prod.fst := by
          subst hs1; simp; left; simpa using hk
        exact ih s1 hk1 hm'

theorem run_new_sections_dup {t : String} :
    ∀ (pairs : List (String × String)) (s : ReportState),
    2 ≤ (pairs.map Prod.fst).count t →
    (run_new_sections s pairs).2 = some .duplicateSection := by
  intro pairs
  induction pairs with
  | nil => intro s h; simp at h
  | cons p rest ih =>
    intro s h
    obtain ⟨t0, b0⟩ := p
    simp only [run_new_sections]
    cases hns : new_section s t0 b0 with
    | error e =>
      obtain ⟨rfl, -⟩ := new_section_error_eq hns
      rfl
    | ok s1 =>
      obtain ⟨hs1, hfresh⟩ := new_section_ok_eq hns
      by_cases ht : t = t0
      · subst ht
        have hm : t ∈ rest.map Prod.fst := by
          have hc : 1 ≤ (rest.map Prod.fst).count t := by
            simp only [List.map_cons, List.count_cons, beq_self_eq_true,
              if_true] at h
            omega
          exact List.count_pos_iff.mp hc
        have hk1 : t ∈ s1.sections.map Prod.fst := by
          subst hs1; simp
        exact run_new_sections_fail_mem rest s1 hk1 hm
      · have h' : 2 ≤ (rest.map Prod.fst).count t := by
          simp only [List.map_cons, List.count_cons] at h
          have : (t0 == t) = false := by
            simp [Ne.symm ht]
          rw [this] at h
          simpa using h
        exact ih s1 h'

/-! ## Lemmas for the glossary build and the reference resolver -/

theorem mem_pyDictSet {m : List (String × α)} {k : String} {v : α}
    {kv : String × α} (h : kv ∈ pyDictSet m k v) :
    kv ∈ m ∨ kv = (k, v) := by
  unfold pyDictSet at h
  split at h
  · obtain ⟨p, hp, hpe⟩ := List.mem_map.mp h
    by_cases hpk : p.1 = k
    · rw [if_pos hpk] at hpe
      exact Or.inr hpe.symm
    · rw [if_neg hpk] at hpe
      exact Or.inl (hpe ▸ hp)
  · rcases List.mem_append.mp h with hm | hm
    · exact Or.inl hm
    · exact Or.inr (List.mem_singleton.mp hm)

theorem mem_glossary_fold {key : String × String × String → String}
    {val : String × String × String → GlossEntry} :
    ∀ (entries : List (String × String × String))
      (m : List (String × GlossEntry)) (kv : String × GlossEntry),
    kv ∈ entries.foldl (fun acc e => pyDictSet acc (key e) (val e)) m →
    kv ∈ m ∨ ∃ e ∈ entries, kv = (key e, val e) := by
  intro entries
  induction entries with
  | nil => intro m kv h; exact Or.inl h
  | cons e0 rest ih =>
    intro m kv h
    rcases ih _ kv h with hm | ⟨e, he, hkv⟩
    · rcases mem_pyDictSet hm with hm' | hkv
      · exact Or.inl hm'
      · exact Or.inr ⟨e0, List.mem_cons_self _ _, by rw [hkv]⟩
    · exact Or.inr ⟨e, List.mem_cons_of_mem _ he, hkv⟩

/-- Specification of `bodyMatch`: it consumes the shortest non-empty body
closed by the first `END` that follows at least one body character. -/
theorem bodyMatch_spec {r b rest : List Char}
    (h : bodyMatch r = some (b, rest)) :
    b ≠ [] ∧ r = b ++ endMarker ++ rest ∧
      ∀ p q, r = p ++ endMarker ++ q → p ≠ [] → b.length ≤ p.length := by
  induction r generalizing b rest with
  | nil => simp [bodyMatch] at h
  | cons c t ih =>
    unfold bodyMatch at h
    split at h
    · next hpre =>
      simp only [Option.some.injEq, Prod.mk.injEq] at h
      obtain ⟨rfl, rfl⟩ : b = [c] ∧ rest = t.drop 3 := ⟨h.1.symm, h.2.symm⟩
      obtain ⟨q, hq⟩ : ∃ q, endMarker ++ q = t :=
        (List.isPrefixOf_iff_prefix.mp hpre)
      refine ⟨by simp, ?_, ?_⟩
      · rw [← hq]
        simp [endMarker]
      · intro p q' _ hp
        have : 1 ≤ p.length := by
          cases p with
          | nil => exact absurd rfl hp
          | cons _ _ => simp
        simpa using this
    · next hpre =>
      cases hbm : bodyMatch t with
      | none => rw [hbm] at h; exact absurd h (by simp)
      | some pr =>
        obtain ⟨p', rest'⟩ := pr
        rw [hbm] at h
        simp only [Option.some.injEq, Prod.mk.injEq] at h
        obtain ⟨rfl, rfl⟩ : b = c :: p' ∧ rest = rest' := ⟨h.1.symm, h.2.symm⟩
        obtain ⟨hne, heq, hmin⟩ := ih hbm
        refine ⟨by simp, by simp [heq], ?_⟩
        intro p q hpq hp
        cases p with
        | nil => exact absurd rfl hp
        | cons p0 p2 =>
          rw [List.cons_append, List.cons_append] at hpq
          injection hpq with h1 h2
          cases p2 with
          | nil =>
            exfalso
            apply hpre
            rw [List.isPrefixOf_iff_prefix]
            exact ⟨q, by simpa using h2.symm⟩
          | cons p3 p4 =>
            have := hmin (p3 :: p4) q (by simpa using h2) (by simp)
            simpa using Nat.succ_le_succ this

/-- A token-free text is returned unchanged by the resolver scan. -/
theorem resolveFuel_no_open {g : List (String × GlossEntry)} :
    ∀ (fuel : Nat) (counts : List (String × Nat)) (cs : List Char),
    '[' ∉ cs → resolveFuel g fuel counts cs = .ok cs := by
  intro fuel
  induction fuel with
  | zero => intro counts cs _; rfl
  | succ fuel ih =>
    intro counts cs h
    cases cs with
    | nil => rfl
    | cons c rest =>
      have hc : ¬(c = '[') := fun hh => h (by rw [hh]; exact List.mem_cons_self _ _)
      have hrest : '[' ∉ rest := fun hh => h (List.mem_cons_of_mem _ hh)
      unfold resolveFuel
      rw [if_neg hc, ih counts rest hrest]

/-! ## Computation lemma for `move_section` at non-negative indices -/

theorem ofNat_le_iff {m j : Nat} : ((m : Int) ≤ Int.ofNat j) ↔ m ≤ j := by
  rw [show Int.ofNat j = (j : Int) from rfl]
  omega

theorem getD_map_eraseIdx (l : List String) (c : Nat) :
    ((List.range l.length).eraseIdx c).map (fun k => l.getD k "")
      = l.eraseIdx c := by
  rw [← eraseIdx_map, getD_map_range]

theorem move_section_compute (s : ReportState) (c j : Nat)
    (hc : c < s.outline.length) :
    move_section s (Int.ofNat c) (Int.ofNat j)
      = .ok { s with outline :=
          if s.outline.length ≤ j then
            (s.outline.eraseIdx c) ++ [s.outline.getD c ""]
          else insertAt j (s.outline.getD c "") (s.outline.eraseIdx c) } := by
  have hidx := pyIdx_ofNat (n := s.outline.length) hc
  have hmemE : ∀ k ∈ (List.range s.outline.length).eraseIdx c,
      k < s.outline.length := fun k hk =>
    List.mem_range.mp (List.eraseIdx_subset _ _ hk)
  unfold move_section
  simp only [pyPop_range_eq hidx hc]
  by_cases hj : s.outline.length ≤ j
  · rw [if_pos (ofNat_le_iff.mpr hj), if_pos hj]
    rw [show ((List.range s.outline.length).eraseIdx c).map Int.ofNat
          ++ [Int.ofNat c]
        = (((List.range s.outline.length).eraseIdx c) ++ [c]).map Int.ofNat
        by simp]
    rw [reorder_ok_of_natList s _ (by
      intro k hk
      rcases List.mem_append.mp hk with hk' | hk'
      · exact hmemE k hk'
      · rw [List.mem_singleton.mp hk']; exact hc)]
    simp only [List.map_append, getD_map_eraseIdx, List.map_cons,
      List.map_nil]
  · rw [if_neg (fun hh => hj (ofNat_le_iff.mp hh)), if_neg hj]
    have hlenE : (((List.range s.outline.length).eraseIdx c).map Int.ofNat).length
        = s.outline.length - 1 := by
      simp [List.length_eraseIdx, hc]
    have hpi : pyInsertIdx
        ((((List.range s.outline.length).eraseIdx c).map Int.ofNat).length)
        (Int.ofNat j) = j := by
      rw [hlenE]
      unfold pyInsertIdx
      rw [if_neg (by
        rw [show Int.ofNat j = (j : Int) from rfl]
        omega)]
      rw [show (Int.ofNat j).toNat = j from rfl]
      omega
    rw [hpi]
    rw [show insertAt j (Int.ofNat c)
          (((List.range s.outline.length).eraseIdx c).map Int.ofNat)
        = (insertAt j c ((List.range s.outline.length).eraseIdx c)).map Int.ofNat
        from (insertAt_map _ _ _ _).symm]
    rw [reorder_ok_of_natList s _ (by
      intro k hk
      have hk' := (insertAt_perm j c _).mem_iff.mp hk
      rcases List.mem_cons.mp hk' with rfl | hk''
      · exact hc
      · exact hmemE k hk'')]
    rw [show (insertAt j c ((List.range s.outline.length).eraseIdx c)).map
          (fun k => s.outline.getD k "")
        = insertAt j (s.outline.getD c "")
            (((List.range s.outline.length).eraseIdx c).map
              (fun k => s.outline.getD k ""))
        from insertAt_map _ _ _ _]
    rw [getD_map_eraseIdx]

/-! ## Claim theorems -/

/-- C1, counterexample: from the empty state, two successful `create` calls
followed by a successful `reorderBy [0,0]` call (the code accepts the
non-bijective argument) leave the outline `["A","A"]`, which is not a
permutation of the registry keys `["A","B"]`. -/
theorem C1_counterexample :
    new_section ⟨[], []⟩ "A" = .ok ⟨[("A", "")], ["A"]⟩
    ∧ new_section ⟨[("A", "")], ["A"]⟩ "B"
        = .ok ⟨[("A", ""), ("B", "")], ["A", "B"]⟩
    ∧ reorder_outline ⟨[("A", ""), ("B", "")], ["A", "B"]⟩ [0, 0]
        = .ok ⟨[("A", ""), ("B", "")], ["A", "A"]⟩
    ∧ ¬ OutlineInv ⟨[("A", ""), ("B", "")], ["A", "A"]⟩ :=
  ⟨rfl, rfl, rfl, by decide⟩

/-- C1 (amended): the outline-permutation invariant holds at the empty
state and is preserved by every successful `new_section` call, every
successful `move_section` call, and every `reorder_outline` call whose
argument is a bijection on `[0, n)`; `reorder_outline` with a non-bijective
in-range argument can break it (see the counterexample). -/
theorem C1_outline_invariant_amended :
    OutlineInv ⟨[], []⟩
    ∧ (∀ (s : ReportState) (t b : String) (s' : ReportState),
        OutlineInv s → new_section s t b = .ok s' → OutlineInv s')
    ∧ (∀ (s : ReportState) (c j : Int) (s' : ReportState),
        OutlineInv s → move_section s c j = .ok s' → OutlineInv s')
    ∧ (∀ (s : ReportState) (ord : List Int) (s' : ReportState),
        OutlineInv s → IsBijOn ord s.outline.length →
        reorder_outline s ord = .ok s' → OutlineInv s') := by
  refine ⟨by simp [OutlineInv], ?_, ?_, ?_⟩
  · intro s t b s' hinv hok
    obtain ⟨rfl, -⟩ := new_section_ok_eq hok
    unfold OutlineInv at hinv ⊢
    simp only [List.map_append]
    exact hinv.append (List.Perm.refl _)
  · intro s c j s' hinv hok
    obtain ⟨hperm, hsec⟩ := move_section_ok_perm hok
    unfold OutlineInv at hinv ⊢
    rw [hsec]
    exact hperm.trans hinv
  · intro s ord s' hinv hbij hre
    obtain ⟨hlen, hnd, hmem⟩ := hbij
    have hmapback : (ord.map Int.toNat).map Int.ofNat = ord := by
      rw [List.map_map]
      refine (List.map_congr_left (fun i hi => ?_)).trans (List.map_id ord)
      have h0 := (hmem i hi).1
      simp only [Function.comp_apply, id]
      show ((i.toNat : Nat) : Int) = i
      omega
    have hksnd : (ord.map Int.toNat).Nodup :=
      List.Nodup.map_on (fun x hx y hy hxy => by
        have := (hmem x hx).1
        have := (hmem y hy).1
        omega) hnd
    have hsub : (ord.map Int.toNat) ⊆ List.range s.outline.length := by
      intro k hk
      obtain ⟨i, hi, rfl⟩ := List.mem_map.mp hk
      have := hmem i hi
      rw [List.mem_range]
      omega
    have hlen2 : (List.range s.outline.length).length
        ≤ (ord.map Int.toNat).length := by
      simp [hlen]
    have hperm : List.Perm (ord.map Int.toNat)
        (List.range s.outline.length) :=
      (hksnd.subperm hsub).perm_of_length_le hlen2
    rw [← hmapback] at hre
    obtain ⟨heq, hout⟩ := reorder_ok_of_perm_range hperm
    rw [heq] at hre
    cases hre
    unfold OutlineInv at hinv ⊢
    exact hout.trans hinv

/-- C1, witness for the amended theorem: a concrete bijective reorder from
a concrete invariant-satisfying state preserves the invariant. -/
theorem C1_witness :
    OutlineInv ⟨[("A", ""), ("B", "")], ["B", "A"]⟩ :=
  C1_outline_invariant_amended.2.2.2 ⟨[("A", ""), ("B", "")], ["A", "B"]⟩
    [1, 0] ⟨[("A", ""), ("B", "")], ["B", "A"]⟩ (by decide) (by decide) rfl

/-- C2, counterexample: `reorder_outline` accepts the non-bijective
argument `[0,0]` and silently produces a duplicated outline; no
`InvalidPermutationError` (or any validation) exists in the code. -/
theorem C2_counterexample :
    reorder_outline ⟨[("X", "x"), ("Y", "y")], ["X", "Y"]⟩ [0, 0]
      = .ok ⟨[("X", "x"), ("Y", "y")], ["X", "X"]⟩
    ∧ ¬ IsBijOn [0, 0] 2 :=
  ⟨rfl, by decide⟩

/-- C2 (amended): `reorder_outline` replaces the outline with
`[outline[i] for i in ordering]` for any argument whose entries are all
valid Python indices in `[-n, n)` (negative entries count from the end,
per `pyGetStr`), performing no bijectivity validation; the only failure is
Python's `IndexError` when some entry is out of that range. -/
theorem C2_reorder_amended :
    (∀ (s : ReportState) (ord : List Int),
      (∀ i ∈ ord, -(s.outline.length : Int) ≤ i
          ∧ i < (s.outline.length : Int)) →
      reorder_outline s ord
        = .ok { s with outline := ord.map (fun i => (pyGetStr s.outline i).getD "") })
    ∧ (∀ (s : ReportState) (ord : List Int) (i : Int), i ∈ ord →
        (i < -(s.outline.length : Int) ∨ (s.outline.length : Int) ≤ i) →
        reorder_outline s ord = .error .indexError) := by
  constructor
  · intro s ord h
    unfold reorder_outline
    rw [mapOpt_some_of_isSome
      (fun i hi => pyGetStr_isSome (h i hi).1 (h i hi).2)]
  · intro s ord i hi hout
    unfold reorder_outline
    rw [mapOpt_none hi (by simp [pyGetStr, pyIdx_none hout])]

/-- C2, witness: a concrete reorder whose argument mixes a negative and a
non-negative in-range index rewrites the outline as specified. -/
theorem C2_witness :
    reorder_outline ⟨[("X", "x"), ("Y", "y")], ["X", "Y"]⟩ [-1, 0]
      = .ok ⟨[("X", "x"), ("Y", "y")], ["Y", "X"]⟩ :=
  C2_reorder_amended.1 ⟨[("X", "x"), ("Y", "y")], ["X", "Y"]⟩ [-1, 0]
    (by decide)

/-- C3: `move_section` removes the element at `currentpos` and reinserts
it so that it occupies position `newpos` of the resulting sequence, moving
it to the tail when `newpos ≥ length`; in particular the two examples from
the specification hold. -/
theorem C3_move_semantics :
    (∀ (s : ReportState) (c j : Nat), c < s.outline.length →
      (move_section s (Int.ofNat c) (Int.ofNat j)
        = .ok { s with outline :=
            if s.outline.length ≤ j then
              (s.outline.eraseIdx c) ++ [s.outline.getD c ""]
            else insertAt j (s.outline.getD c "") (s.outline.eraseIdx c) })
      ∧ (j < s.outline.length →
          (insertAt j (s.outline.getD c "") (s.outline.eraseIdx c)).getD j ""
            = s.outline.getD c ""))
    ∧ move_section ⟨[], ["A", "B", "C", "D", "E", "F"]⟩ 4 1
        = .ok ⟨[], ["A", "E", "B", "C", "D", "F"]⟩
    ∧ move_section ⟨[], ["A", "B", "C", "D", "E", "F"]⟩ 1 4
        = .ok ⟨[], ["A", "C", "D", "E", "B", "F"]⟩ := by
  refine ⟨?_, rfl, rfl⟩
  intro s c j hc
  refine ⟨move_section_compute s c j hc, fun hj => ?_⟩
  apply insertAt_getD
  rw [List.length_eraseIdx]
  split
  · omega
  · omega

/-- C3, witness: the general characterization applied at a concrete
state. -/
theorem C3_witness :
    move_section ⟨[], ["A", "B", "C"]⟩ (Int.ofNat 0) (Int.ofNat 1)
      = .ok ⟨[], ["B", "A", "C"]⟩
    ∧ (insertAt 1 ((["A", "B", "C"] : List String).getD 0 "")
        ((["A", "B", "C"] : List String).eraseIdx 0)).getD 1 ""
      = (["A", "B", "C"] : List String).getD 0 "" :=
  ⟨(C3_move_semantics.1 ⟨[], ["A", "B", "C"]⟩ 0 1 (by decide)).1,
   (C3_move_semantics.1 ⟨[], ["A", "B", "C"]⟩ 0 1 (by decide)).2 (by decide)⟩

/-- C4: a `new_section` call with an existing title always fails with the
duplicate-section error (and, the raise preceding any assignment, leaves
registry and outline unchanged — the embedding returns the error without a
new state); a fresh title is recorded and appended at the tail of the
outline. -/
theorem C4_create_unique :
    ∀ (s : ReportState) (t b : String),
    (t ∈ s.sections.map Prod.fst →
      new_section s t b = .error .duplicateSection)
    ∧ (t ∉ s.sections.map Prod.fst →
      new_section s t b = .ok ⟨s.sections ++ [(t, b)], s.outline ++ [t]⟩) :=
  fun _ _ _ => ⟨new_section_mem, new_section_fresh⟩

/-- C4, witness: both cases at concrete inputs. -/
theorem C4_witness :
    new_section ⟨[("A", "x")], ["A"]⟩ "A" "y" = .error .duplicateSection
    ∧ new_section ⟨[("A", "x")], ["A"]⟩ "B" "y"
        = .ok ⟨[("A", "x"), ("B", "y")], ["A", "B"]⟩ :=
  ⟨(C4_create_unique ⟨[("A", "x")], ["A"]⟩ "A" "y").1 (by decide),
   (C4_create_unique ⟨[("A", "x")], ["A"]⟩ "B" "y").2 (by decide)⟩

/-- C7, counterexample: a failing `sections_from_dict` call does not leave
the registry and outline unchanged — the entries processed before the
duplicate stay registered. -/
theorem C7_counterexample :
    sections_from_dict ⟨[("B", "x")], ["B"]⟩ [("A", ""), ("B", "")]
      = (⟨[("B", "x"), ("A", "")], ["B", "A"]⟩, some .duplicateSection)
    ∧ (ReportState.mk [("B", "x"), ("A", "")] ["B", "A"])
        ≠ ⟨[("B", "x")], ["B"]⟩ :=
  ⟨rfl, by decide⟩

/-- C7 (amended): `sections_from_dict` applies `new_section` per entry in
iteration order with the duplicate-title failure semantics; a fully
successful call appends all entries, while a failing call raises the
duplicate-section error with every entry before the failing one still
applied (partial mutation). -/
theorem C7_batch_create_amended :
    (∀ (s : ReportState) (pairs : List (String × String))
      (s' : ReportState), sections_from_dict s pairs = (s', none) →
      s' = ⟨s.sections ++ pairs, s.outline ++ pairs.map Prod.fst⟩)
    ∧ (∀ (s : ReportState) (pairs : List (String × String))
        (s' : ReportState) (e : PgError),
        sections_from_dict s pairs = (s', some e) →
        e = .duplicateSection ∧ ∃ pre t b post,
          pairs = pre ++ (t, b) :: post ∧
          sections_from_dict s pre = (s', none) ∧
          t ∈ s'.sections.map Prod.fst) :=
  ⟨fun _ _ _ h => run_new_sections_ok h,
   fun _ _ _ _ h => run_new_sections_err h⟩

/-- C7, witness: the failure decomposition at the counterexample input. -/
theorem C7_witness :
    PgError.duplicateSection = PgError.duplicateSection
    ∧ ∃ pre t b post,
      ([("A", ""), ("B", "")] : List (String × String))
        = pre ++ (t, b) :: post
      ∧ sections_from_dict ⟨[("B", "x")], ["B"]⟩ pre
          = (⟨[("B", "x"), ("A", "")], ["B", "A"]⟩, none)
      ∧ t ∈ (ReportState.mk [("B", "x"), ("A", "")] ["B", "A"]).sections.map
          Prod.fst :=
  C7_batch_create_amended.2 ⟨[("B", "x")], ["B"]⟩ [("A", ""), ("B", "")]
    ⟨[("B", "x"), ("A", "")], ["B", "A"]⟩ PgError.duplicateSection rfl

/-- C9: for a non-empty outline, a negative `currentpos` in `[-n, -1]`
does not raise: it relocates the element counted from the end, success
holds exactly when `currentpos ∈ [-n, n)`, and an out-of-range call fails
with the index error (state untouched, the pop acting on a local list). -/
theorem C9_move_negative_index :
    ∀ (s : ReportState) (c j : Int), 1 ≤ s.outline.length →
    ((-(s.outline.length : Int) ≤ c → c < 0 →
        move_section s c j = move_section s (c + s.outline.length) j)
    ∧ ((∃ s', move_section s c j = .ok s')
        ↔ (-(s.outline.length : Int) ≤ c ∧ c < (s.outline.length : Int)))
    ∧ ((c < -(s.outline.length : Int) ∨ (s.outline.length : Int) ≤ c) →
        move_section s c j = .error .indexError)) := by
  intro s c j _
  refine ⟨?_, ⟨?_, ?_⟩, move_section_err⟩
  · intro h1 h2
    have hL : pyIdx s.outline.length c
        = some ((s.outline.length : Int) + c).toNat := by
      unfold pyIdx
      rw [if_neg (by omega), if_pos h1]
    have hR : pyIdx s.outline.length (c + s.outline.length)
        = some (c + (s.outline.length : Int)).toNat := by
      unfold pyIdx
      rw [if_pos (by omega), if_pos (by omega)]
    have hLR : pyIdx s.outline.length c
        = pyIdx s.outline.length (c + s.outline.length) := by
      rw [hL, hR]
      congr 1
      omega
    unfold move_section pyPop
    simp only [List.length_map, List.length_range, hLR]
  · rintro ⟨s', hs'⟩
    by_contra hc
    rw [move_section_err (by omega)] at hs'
    exact Except.noConfusion hs'
  · rintro ⟨h1, h2⟩
    exact move_section_isOk h1 h2

/-- C9, witness: for outline `["A","B"]`, index `-1` behaves like index
`1`, and index `-3` raises. -/
theorem C9_witness :
    move_section ⟨[], ["A", "B"]⟩ (-1) 0
      = move_section ⟨[], ["A", "B"]⟩ (-1 + (2 : Int)) 0
    ∧ move_section ⟨[], ["A", "B"]⟩ (-3) 0 = .error .indexError :=
  ⟨(C9_move_negative_index ⟨[], ["A", "B"]⟩ (-1) 0 (by decide)).1
      (by decide) (by decide),
   (C9_move_negative_index ⟨[], ["A", "B"]⟩ (-3) 0 (by decide)).2.2
      (by decide)⟩

/-- C10: `_load_outline` registers each line stripped of surrounding
whitespace as a section with empty body — a blank line becomes a section
titled `""` (first conjunct: a concrete whitespace-only line) — so any
outline text with two or more whitespace-only lines makes the load fail
with the duplicate-section error. -/
theorem C10_blank_outline_lines :
    load_outline_text ⟨[], []⟩ " \n" = (⟨[("", "")], [""]⟩, none)
    ∧ (∀ (s : ReportState) (data : String),
        2 ≤ (((pyLines data).map pyStrip).count "") →
        (load_outline_text s data).2 = some .duplicateSection) := by
  refine ⟨rfl, ?_⟩
  intro s data h
  unfold load_outline_text
  apply run_new_sections_dup
  rw [show ((pyLines data).map (fun l => (pyStrip l, ""))).map Prod.fst
        = (pyLines data).map pyStrip by rw [List.map_map]; rfl]
  exact h

/-- C10, witness: a concrete outline text with two whitespace-only lines
fails with the duplicate-section error. -/
theorem C10_witness :
    2 ≤ (((pyLines "a\n \nb\n\t\n").map pyStrip).count "")
    ∧ (load_outline_text ⟨[], []⟩ "a\n \nb\n\t\n").2
        = some PgError.duplicateSection :=
  ⟨by decide,
   C10_blank_outline_lines.2 ⟨[], []⟩ "a\n \nb\n\t\n" (by decide)⟩

/-- C5: the glossary build keys every matched entry as
`categoryPrefix.lower() + ":" + label.strip()` with the body stripped
(second conjunct: every glossary binding arises this way from a matched
entry), each entry is closed by the first `END` after its label (third
conjunct: the non-greedy, multi-line body matcher takes the shortest
non-empty body before an `END`), and the concrete example from the
specification evaluates as claimed (first conjunct). -/
theorem C5_glossary_build :
    load_glossary_text ["lemma"] "Sec" "lemma foo\nbar baz\nEND"
      = [("sec:foo", ⟨"lemma", "bar baz"⟩)]
    ∧ (∀ (kinds : List String) (refcat data : String)
        (kv : String × GlossEntry),
        kv ∈ load_glossary_text kinds refcat data →
        ∃ e ∈ findAllEntries kinds data,
          kv = (pyLower refcat ++ ":" ++ pyStrip e.2.1,
                ⟨e.1, pyStrip e.2.2⟩))
    ∧ (∀ (r b rest : List Char), bodyMatch r = some (b, rest) →
        b ≠ [] ∧ r = b ++ endMarker ++ rest ∧
        ∀ p q, r = p ++ endMarker ++ q → p ≠ [] → b.length ≤ p.length) := by
  refine ⟨rfl, ?_, fun _ _ _ h => bodyMatch_spec h⟩
  intro kinds refcat data kv hkv
  unfold load_glossary_text at hkv
  rcases mem_glossary_fold (findAllEntries kinds data) [] kv hkv
    with hm | ⟨e, he, hkv'⟩
  · simp at hm
  · exact ⟨e, he, hkv'⟩

/-- C5, witness: the shape property instantiated at the concrete example
entry. -/
theorem C5_witness :
    ∃ e ∈ findAllEntries ["lemma"] "lemma foo\nbar baz\nEND",
      (("sec:foo", (⟨"lemma", "bar baz"⟩ : GlossEntry)) : String × GlossEntry)
        = (pyLower "Sec" ++ ":" ++ pyStrip e.2.1, ⟨e.1, pyStrip e.2.2⟩) :=
  C5_glossary_build.2.1 ["lemma"] "Sec" "lemma foo\nbar baz\nEND"
    ("sec:foo", ⟨"lemma", "bar baz"⟩) (by decide)

/-- C6 (spec-modelled resolver, see `resolveText`): resolving text that
contains no reference tokens returns it unchanged, for every glossary;
hence resolving already-resolved token-free output a second time is the
identity. -/
theorem C6_resolve_idempotent :
    (∀ (g : List (String × GlossEntry)) (text : String),
      noRefTokens text → resolveText g text = .ok text)
    ∧ (∀ (g g' : List (String × GlossEntry)) (text t : String),
        resolveText g text = .ok t → noRefTokens t →
        resolveText g' t = .ok t) := by
  have base : ∀ (g : List (String × GlossEntry)) (text : String),
      noRefTokens text → resolveText g text = .ok text := by
    intro g text h
    unfold resolveText
    rw [resolveFuel_no_open _ _ _ h]
    rfl
  exact ⟨base, fun _ g' _ t _ ht => base g' t ht⟩

/-- C6, witness: a concrete token-free text is returned unchanged. -/
theorem C6_witness :
    noRefTokens "plain text" ∧ resolveText [] "plain text" = .ok "plain text" :=
  ⟨by decide, C6_resolve_idempotent.1 [] "plain text" (by decide)⟩

/-- C8: evaluating the header check at the failing configuration.  With
one header slot set (`lhead="x"`), `packages=[]`, `toc=False` and
title/author given, but no `count_pos` kwarg, the slot check holds (first
conjunct) yet `initialize` raises `KeyError` reading
`self.args['count_pos']` inside `_check_fancyhdr` (second conjunct) — the
claim instead says it succeeds whether or not a page-count slot was
designated.  When the `count_pos` key is merely present, designated
(third conjunct) or not (fourth conjunct), `initialize` succeeds and
`fancyhdr` is in the package list, added only when not already present
(fifth conjunct). -/
theorem C8_header_check_keyerror :
    (mkReport { lhead := some "x", packages := some [], toc := some false, title := some "t", author := some "a" }).map has_headers
      = .ok true
    ∧ (mkReport { lhead := some "x", packages := some [], toc := some false, title := some "t", author := some "a" }).bind
          (fun r => reportInit r "")
      = .error .keyError
    ∧ ((mkReport { lhead := some "x", packages := some [], toc := some false, title := some "t", author := some "a", count_pos := some (some "rfoot") }).bind
          (fun r => reportInit r "")).map (fun r => r.args.packages)
      = .ok (some ["fancyhdr", "lastpage"])
    ∧ ((mkReport { lhead := some "x", packages := some [], toc := some false, title := some "t", author := some "a", count_pos := some none }).bind
          (fun r => reportInit r "")).map (fun r => r.args.packages)
      = .ok (some ["fancyhdr"])
    ∧ ((mkReport { lhead := some "x", packages := some ["fancyhdr"], toc := some false, title := some "t", author := some "a", count_pos := some none }).bind
          (fun r => reportInit r "")).map (fun r => r.args.packages)
      = .ok (some ["fancyhdr"]) :=
  ⟨rfl, rfl, rfl, rfl, rfl⟩

end PaperGen
